import Mathlib

/-!
Verification development for the ssh-mcp repository.

The Go source is shallowly embedded: Go strings are modelled as `List Char`,
byte streams as `List Nat` (each element a byte value), `time.Time` and
`time.Duration` as `Int` (nanoseconds), and Go maps as association lists.
Stateful code is modelled by explicit state passing; fallible code returns
`Option`.  Each definition names the Go function it embeds.
-/

namespace SshMcp

/-- Go string literal to its character list. -/
def gs (s : String) : List Char := s.data

/-- Embeds strings.HasPrefix(s, pre): does s start with pre? -/
def goHasPre : List Char → List Char → Bool
  | _, [] => true
  | [], _ :: _ => false
  | a :: s, b :: pre => a = b && goHasPre s pre

/-- Embeds strings.HasSuffix(s, suf): does s end with suf? -/
def goHasSuf (s suf : List Char) : Bool :=
  goHasPre s.reverse suf.reverse

/-- Embeds strings.Split(s, sep) for a one-element separator: split keeping
empty groups; always returns at least one group. -/
def splitSep {α : Type} [DecidableEq α] (sep : α) : List α → List (List α)
  | [] => [[]]
  | a :: rest =>
    if a = sep then [] :: splitSep sep rest
    else (a :: (splitSep sep rest).headD []) :: (splitSep sep rest).tail

/-- strings.Split on character lists. -/
def splitCh (sep : Char) : List Char → List (List Char) := splitSep sep

/-- Is the character an ASCII decimal digit? -/
def isDigitC (c : Char) : Bool := 48 ≤ c.toNat && c.toNat ≤ 57

/-- Decimal value of a digit string (the accumulator loop of Go's dtoi). -/
def decValC (cs : List Char) : Nat :=
  cs.foldl (fun a c => a * 10 + (c.toNat - 48)) 0

/-- Embeds one field of net.ParseIP's IPv4 dotted-quad parse: non-empty, all
digits, no leading zero, value at most 255. -/
def ipField (cs : List Char) : Option Nat :=
  if cs = [] then none
  else if ¬ cs.all isDigitC then none
  else if cs.headD ' ' = '0' ∧ cs.length ≠ 1 then none
  else if 255 < decValC cs then none
  else some (decValC cs)

/-- Embeds net.ParseIP for the IPv4 dotted-quad address family (the form the
security configuration patterns use); the value is the 32-bit address. -/
def goParseIP (cs : List Char) : Option Nat :=
  match splitCh '.' cs with
  | [a, b, c, d] =>
    match ipField a, ipField b, ipField c, ipField d with
    | some x, some y, some z, some w => some (((x * 256 + y) * 256 + z) * 256 + w)
    | _, _, _, _ => none
  | _ => none

/-- Zero out the low (32 - m) bits of a 32-bit value: IP.Mask for a /m mask. -/
def maskApply (m v : Nat) : Nat := v / 2 ^ (32 - m) * 2 ^ (32 - m)

/-- Embeds net.ParseCIDR for IPv4: splits at the first '/', parses the address
and the prefix length, and returns (prefix length, masked network value). -/
def parseCIDR (cs : List Char) : Option (Nat × Nat) :=
  if '/' ∈ cs then
    let addr := cs.takeWhile (· ≠ '/')
    let maskS := (cs.dropWhile (· ≠ '/')).drop 1
    match goParseIP addr with
    | none => none
    | some ip =>
      if maskS ≠ [] ∧ maskS.all isDigitC ∧ decValC maskS ≤ 32 then
        some (decValC maskS, maskApply (decValC maskS) ip)
      else none
  else none

/-- Embeds (*net.IPNet).Contains for a parsed CIDR value. -/
def cidrNetContains (ipNet : Nat × Nat) (ip : Nat) : Bool :=
  maskApply ipNet.1 ip = ipNet.2

/-- The CIDR arm of matchHost as one function: the pattern parses as a CIDR
network and the host parses as an IP the network contains. -/
def cidrMatches (host pattern : List Char) : Bool :=
  match parseCIDR pattern with
  | none => false
  | some ipNet =>
    match goParseIP host with
    | none => false
    | some ip => cidrNetContains ipNet ip

/-- Embeds matchHost (security/security.go): exact match, then leading
wildcard, then CIDR; otherwise no match. -/
def matchHost (host pattern : List Char) : Bool :=
  if host = pattern then true
  else if goHasPre pattern (gs "*.") then goHasSuf host (pattern.drop 1)
  else if '/' ∈ pattern then cidrMatches host pattern
  else false

/-- Embeds net.SplitHostPort: on success returns the host part. -/
def goSplitHostPort (cs : List Char) : Option (List Char) :=
  if ':' ∈ cs then
    let port := (cs.reverse.takeWhile (· ≠ ':')).reverse
    let i := cs.length - port.length - 1
    let before := cs.take i
    if cs.headD ' ' = '[' then
      if ']' ∈ cs then
        let inner := (cs.drop 1).takeWhile (· ≠ ']')
        let endIdx := inner.length + 1
        if endIdx + 1 = cs.length then none
        else if endIdx + 1 ≠ i then none
        else if '[' ∈ cs.drop 1 then none
        else if ']' ∈ cs.drop (endIdx + 1) then none
        else some inner
      else none
    else
      if ':' ∈ before then none
      else if '[' ∈ cs then none
      else if ']' ∈ cs then none
      else some before
  else none

/-- The port-stripping step of CheckHost: if SplitHostPort succeeds the host
is replaced by its host part, otherwise kept as is. -/
def stripPort (host : List Char) : List Char :=
  (goSplitHostPort host).getD host

/-- Embeds security.Config. -/
structure SecConfig where
  allowedHosts : List (List Char)
  deniedHosts : List (List Char)
  allowedCommands : List (List Char)
  deniedCommands : List (List Char)
  rateLimit : Int
  loggingEnabled : Bool
deriving DecidableEq, Repr

/-- Embeds (*security.Manager).CheckHost; true means allowed.  The logging
side effect carries no information and is dropped. -/
def checkHost (cfg : SecConfig) (host : List Char) : Bool :=
  let h := stripPort host
  if cfg.deniedHosts.any (fun d => matchHost h d) then false
  else if cfg.allowedHosts.isEmpty then true
  else cfg.allowedHosts.any (fun a => matchHost h a)

/-- The decision CheckCommand returns, separating the error cases by their
message. -/
inductive CmdDecision
  | ok
  | rateLimited
  | cmdDenied
  | cmdNotAllowed
deriving DecidableEq, Repr

/-- The deny-prefix / allow-prefix part of CheckCommand, after the rate
limiter has been consulted; the rate-limiter map passes through untouched. -/
def cmdRules (cfg : SecConfig) (cmd : List Char) (rl : List (List Char × Int)) :
    CmdDecision × List (List Char × Int) :=
  if cfg.deniedCommands.any (fun d => goHasPre cmd d) then (.cmdDenied, rl)
  else if cfg.allowedCommands.isEmpty then (.ok, rl)
  else if cfg.allowedCommands.any (fun a => goHasPre cmd a) then (.ok, rl)
  else (.cmdNotAllowed, rl)

/-- Lookup in an association list modelling a Go map. -/
def alLookup (k : List Char) : List (List Char × Int) → Option Int
  | [] => none
  | (k', v) :: rest => if k = k' then some v else alLookup k rest

/-- Map store m[k] = v on the association-list model. -/
def alStore (k : List Char) (v : Int) : List (List Char × Int) → List (List Char × Int)
  | [] => [(k, v)]
  | (k', v') :: rest => if k = k' then (k, v) :: rest else (k', v') :: alStore k v rest

/-- Embeds (*security.Manager).CheckCommand with time.Now() passed in as now
and the rate-limiter map passed as explicit state. -/
def checkCommand (cfg : SecConfig) (now : Int) (sessionID cmd : List Char)
    (rl : List (List Char × Int)) : CmdDecision × List (List Char × Int) :=
  if 0 < cfg.rateLimit then
    match alLookup sessionID rl with
    | some lastOp =>
      if now - lastOp < cfg.rateLimit then (.rateLimited, rl)
      else cmdRules cfg cmd (alStore sessionID now rl)
    | none => cmdRules cfg cmd (alStore sessionID now rl)
  else cmdRules cfg cmd rl

/-- Embeds session.Session.  The `*ssh.Client` handle is opaque: it is
modelled as an optional numeric handle (nil = none). -/
structure GoSession where
  id : List Char
  client : Option Nat
  createdAt : Int
  lastActivity : Int
  host : List Char
  username : List Char
deriving DecidableEq, Repr

/-- Embeds session.Manager: the map of sessions (an association list keyed by
id; a key stands for the *Session pointer the Go map stores) and the expiry. -/
structure SessionTable where
  sessions : List (List Char × GoSession)
  sessionExpiry : Int
deriving DecidableEq, Repr

/-- Embeds session.NewManager: non-positive expiry falls back to 30 minutes
(in nanoseconds, the unit of time.Duration). -/
def newManager (sessionExpiry : Int) : SessionTable :=
  ⟨[], if sessionExpiry ≤ 0 then 1800 * 1000000000 else sessionExpiry⟩

/-- Lookup of a session by id (Go map read). -/
def sessLookup (k : List Char) : List (List Char × GoSession) → Option GoSession
  | [] => none
  | (k', v) :: rest => if k = k' then some v else sessLookup k rest

/-- In-place mutation of the session stored under a key: every entry with the
key (at most one, since Go map keys are unique) is replaced. -/
def sessWrite (k : List Char) (v : GoSession) : List (List Char × GoSession) →
    List (List Char × GoSession)
  | [] => []
  | p :: rest => (if p.1 = k then (p.1, v) else p) :: sessWrite k v rest

/-- Embeds (*session.Manager).GetSession with time.Now() passed as now: on a
hit the stored session's LastActivity is mutated to now (visible through every
pointer to it) and the session is returned. -/
def getSession (now : Int) (id : List Char) (m : SessionTable) :
    Option GoSession × SessionTable :=
  match sessLookup id m.sessions with
  | none => (none, m)
  | some s =>
    let s' := { s with lastActivity := now }
    (some s', { m with sessions := sessWrite id s' m.sessions })

/-- Embeds (*session.Manager).ListSessions: the returned slice holds the
*Session pointers of the table, modelled by their keys; reading a listed
session's fields afterwards goes through the table current at that time. -/
def listSessions (m : SessionTable) : List (List Char) :=
  m.sessions.map (fun p => p.1)

/-- The loop body of CleanupExpiredSessions over the table entries: returns
the surviving entries, the trace of closed client handles (Close is skipped
for a nil client), and the removed count. -/
def cleanupLoop (now expiry : Int) : List (List Char × GoSession) →
    List (List Char × GoSession) × List Nat × Nat
  | [] => ([], [], 0)
  | (id, s) :: rest =>
    if expiry < now - s.lastActivity then
      let r := cleanupLoop now expiry rest
      (r.1, s.client.toList ++ r.2.1, r.2.2 + 1)
    else
      let r := cleanupLoop now expiry rest
      ((id, s) :: r.1, r.2.1, r.2.2)

/-- Embeds (*session.Manager).CleanupExpiredSessions with time.Now() passed as
now: removes sessions idle beyond the expiry, closing their handles, and
returns the new table, the close trace, and the count. -/
def cleanupExpiredSessions (now : Int) (m : SessionTable) :
    SessionTable × List Nat × Nat :=
  let r := cleanupLoop now m.sessionExpiry m.sessions
  ({ m with sessions := r.1 }, r.2.1, r.2.2)

/-- One parsed row of (*file.Operations).ListDirectory's result (the Go code
stores isDirectory as the string form of the bool). -/
structure LsEntry where
  name : List Char
  permissions : List Char
  size : List Char
  date : List Char
  isDirectory : Bool
deriving DecidableEq, Repr

/-- The whitespace class of strings.Fields (the ASCII part of unicode.IsSpace,
which is what ls output contains). -/
def goIsSpace (c : Char) : Bool :=
  c = ' ' ∨ c = '\t' ∨ c = '\n' ∨ c = '\x0b' ∨ c = '\x0c' ∨ c = '\r'

/-- Accumulator loop for goFields. -/
def fieldsGo (acc : List Char) : List Char → List (List Char)
  | [] => if acc = [] then [] else [acc.reverse]
  | c :: rest =>
    if goIsSpace c then
      if acc = [] then fieldsGo [] rest else acc.reverse :: fieldsGo [] rest
    else fieldsGo (c :: acc) rest

/-- Embeds strings.Fields: split around runs of whitespace, no empty fields. -/
def goFields (cs : List Char) : List (List Char) := fieldsGo [] cs

/-- Embeds strings.Join(fs, " "). -/
def joinSpace (fs : List (List Char)) : List Char := List.intercalate [' '] fs

/-- The entry built from one well-formed ls -la line (at least 9 fields).
The Go code indexes fields[0] and permissions[0] only after the length
check, so the getD/headD defaults are never reached there. -/
def mkLsEntry (fields : List (List Char)) : LsEntry :=
  { permissions := fields.getD 0 []
    size := fields.getD 4 []
    date := joinSpace ((fields.drop 5).take 3)
    name := joinSpace (fields.drop 8)
    isDirectory := (fields.getD 0 []).headD ' ' = 'd' }

/-- The parsing loop of ListDirectory over the output lines: empty lines,
"total " lines and lines with fewer than 9 fields are skipped. -/
def lsLoop : List (List Char) → List LsEntry
  | [] => []
  | line :: rest =>
    if line = [] then lsLoop rest
    else if goHasPre line (gs "total ") then lsLoop rest
    else
      let fields := goFields line
      if fields.length < 9 then lsLoop rest
      else mkLsEntry fields :: lsLoop rest

/-- Embeds the output-parsing part of (*file.Operations).ListDirectory,
applied to the combined output of the remote listing command. -/
def listDirectory (output : List Char) : List LsEntry :=
  lsLoop (splitCh '\n' output)

/-- A local filesystem effect of the download protocol engine.  Paths are
lists of components (filepath.Join appends a component); names arriving on
the wire are byte lists. -/
inductive FSOp
  | mkdirAll (path : List (List Nat))
  | createFile (path : List (List Nat)) (content : List Nat)
deriving DecidableEq, Repr

/-- One observable step on the exec channel: a byte read, a line read
(bufio ReadString including the delimiter), a bulk read (io.CopyN), a write,
or a filesystem effect. -/
inductive Ev
  | rdB (b : Nat)
  | rdLine (bs : List Nat)
  | rdData (bs : List Nat)
  | wr (bs : List Nat)
  | fs (op : FSOp)
deriving DecidableEq, Repr

/-- The exec channel state: bytes still to be read from the remote side, and
the trace of steps performed so far. -/
structure Chan where
  input : List Nat
  events : List Ev
deriving DecidableEq, Repr

/-- A write to the channel's stdin (writes on the model never fail). -/
def chWrite (bs : List Nat) (st : Chan) : Chan := ⟨st.input, st.events ++ [.wr bs]⟩

/-- Record a local filesystem effect. -/
def chFs (op : FSOp) (st : Chan) : Chan := ⟨st.input, st.events ++ [.fs op]⟩

/-- bufio ReadByte: none at end of stream. -/
def chReadB (st : Chan) : Option (Nat × Chan) :=
  match st.input with
  | [] => none
  | b :: rest => some (b, ⟨rest, st.events ++ [.rdB b]⟩)

/-- bufio ReadString of a newline: none when the stream ends before a newline
(Go returns the partial data with io.EOF; every caller here treats that as a
failure of the read, except scpDownloadDir which checks for it up front). -/
def chReadLine (st : Chan) : Option (List Nat × Chan) :=
  if (10 : Nat) ∈ st.input then
    some (st.input.takeWhile (· ≠ 10) ++ [10],
      ⟨(st.input.dropWhile (· ≠ 10)).drop 1,
        st.events ++ [.rdLine (st.input.takeWhile (· ≠ 10) ++ [10])]⟩)
  else none

/-- io.CopyN of k bytes: none when the stream ends short (CopyN reports
io.EOF); k = 0 copies nothing and succeeds, matching CopyN on n ≤ 0. -/
def chReadN (k : Nat) (st : Chan) : Option (List Nat × Chan) :=
  if st.input.length < k then none
  else some (st.input.take k, ⟨st.input.drop k, st.events ++ [.rdData (st.input.take k)]⟩)

/-- Embeds checkSCPStatus: read one control byte; zero is success, non-zero
makes the transfer fail (Go drains the message line and returns it as the
error; errors carry no further information in the model). -/
def checkSCPStatus (st : Chan) : Option Chan := do
  let (code, st1) ← chReadB st
  if code = 0 then some st1 else none

/-- Bytes of a Lean string literal (ASCII in all uses here). -/
def strBytes (s : String) : List Nat := s.data.map Char.toNat

/-- Little-endian decimal digits of n (empty for 0); the first argument is
recursion fuel, sufficient whenever n ≤ fuel. -/
def ndAux : Nat → Nat → List Nat
  | 0, _ => []
  | _ + 1, 0 => []
  | f + 1, n + 1 => ((n + 1) % 10 + 48) :: ndAux f ((n + 1) / 10)

/-- The decimal byte string fmt prints for a natural number. -/
def natDec (n : Nat) : List Nat := if n = 0 then [48] else (ndAux n n).reverse

/-- Decimal value accumulated over digit bytes. -/
def digitsVal (bs : List Nat) : Nat := bs.foldl (fun a b => a * 10 + (b - 48)) 0

/-- Non-empty and all bytes ASCII digits. -/
def allDigitsB (bs : List Nat) : Bool :=
  bs ≠ [] && bs.all (fun b => 48 ≤ b && b ≤ 57)

/-- Embeds strconv.ParseInt(s, 10, 64): optional sign, decimal digits, and
the int64 range check. -/
def parseInt64 (bs : List Nat) : Option Int :=
  match bs with
  | [] => none
  | b :: rest =>
    if b = 43 then
      if allDigitsB rest && digitsVal rest ≤ 2 ^ 63 - 1 then some (digitsVal rest) else none
    else if b = 45 then
      if allDigitsB rest && digitsVal rest ≤ 2 ^ 63 then some (-(digitsVal rest : Int)) else none
    else
      if allDigitsB bs && digitsVal bs ≤ 2 ^ 63 - 1 then some (digitsVal bs) else none

/-- The header fmt.Fprintf(w, "C0644 %d %s\n", size, filename) writes. -/
def uploadHeader (filename : String) (size : Nat) : List Nat :=
  strBytes "C0644 " ++ natDec size ++ [32] ++ strBytes filename ++ [10]

/-- Embeds scpUploadFile (file/operations.go): write the C header, wait for a
control byte, stream the content, write the trailing zero, wait for the final
control byte.  The Go size argument is the source's byte count — taken from
Stat by Upload, or recomputed by buffering to a temporary file when it is 0 —
so it equals content.length here; the Flush on the pipe is a no-op in the
model. -/
def scpUploadFile (filename : String) (content : List Nat) (st : Chan) : Option Chan := do
  let st1 := chWrite (uploadHeader filename content.length) st
  let st2 ← checkSCPStatus st1
  let st3 := chWrite content st2
  let st4 := chWrite [0] st3
  checkSCPStatus st4

/-- strings.Split on byte lists. -/
def splitB (sep : Nat) : List Nat → List (List Nat) := splitSep sep

/-- Embeds the download callback of (*file.Operations).Download: initiate
with a zero byte, read the header line which must start with C, parse the
declared size, acknowledge, copy exactly that many bytes (the local file's
content, returned here), require a zero status byte, acknowledge. -/
def download (st : Chan) : Option (List Nat × Chan) := do
  let st1 := chWrite [0] st
  let (header, st2) ← chReadLine st1
  if header.headD 0 ≠ 67 then none
  else
    let parts := splitB 32 header
    if parts.length < 3 then none
    else do
      let size ← parseInt64 (parts.getD 1 [])
      let st3 := chWrite [0] st2
      let (data, st4) ← chReadN size.toNat st3
      let (status, st5) ← chReadB st4
      if status ≠ 0 then none
      else some (data, chWrite [0] st5)

/-- Embeds strings.TrimRight(s, "\n") on byte lists. -/
def trimNL (bs : List Nat) : List Nat := (bs.reverse.dropWhile (· = 10)).reverse

/-- Embeds strings.SplitN(s, " ", 3) on byte lists. -/
def splitN3 (sep : Nat) (bs : List Nat) : List (List Nat) :=
  if sep ∈ bs then
    let p0 := bs.takeWhile (· ≠ sep)
    let r1 := (bs.dropWhile (· ≠ sep)).drop 1
    if sep ∈ r1 then [p0, r1.takeWhile (· ≠ sep), (r1.dropWhile (· ≠ sep)).drop 1]
    else [p0, r1]
  else [bs]

/-- Embeds scpDownloadDir (session/manager.go): the recursive consumer of the
directory download stream.  End of stream before a newline is the Go
ReadString err == io.EOF path and returns success.  The first argument is
recursion fuel; every loop iteration consumes at least one input byte, so any
fuel above the input length is sufficient.  The C case records the created
file as one createFile effect carrying the copied content. -/
def scpDownloadDir : Nat → List (List Nat) → Bool → Chan → Option Chan
  | 0, _, _, _ => none
  | fuel + 1, destPath, stripName, st =>
    if (10 : Nat) ∈ st.input then
      match chReadLine st with
      | none => none
      | some (header, st1) =>
        if header.headD 0 = 69 then some (chWrite [0] st1)
        else if header.headD 0 = 84 then
          scpDownloadDir fuel destPath stripName (chWrite [0] st1)
        else if header.headD 0 = 67 then
          let parts := splitN3 32 header
          if parts.length ≠ 3 then none
          else
            match parseInt64 (parts.getD 1 []) with
            | none => none
            | some size =>
              let name := trimNL (parts.getD 2 [])
              let st2 := chWrite [0] st1
              match chReadN size.toNat st2 with
              | none => none
              | some (data, st3) =>
                let st4 := chFs (.createFile (destPath ++ [name]) data) st3
                match checkSCPStatus st4 with
                | none => none
                | some st5 => scpDownloadDir fuel destPath stripName (chWrite [0] st5)
        else if header.headD 0 = 68 then
          let parts := splitN3 32 header
          if parts.length ≠ 3 then none
          else
            let name := trimNL (parts.getD 2 [])
            let st2 := chWrite [0] st1
            let dirPath := if stripName then destPath else destPath ++ [name]
            let st3 := chFs (.mkdirAll dirPath) st2
            match scpDownloadDir fuel dirPath false st3 with
            | none => none
            | some st4 => scpDownloadDir fuel destPath stripName st4
        else if header.headD 0 = 1 ∨ header.headD 0 = 2 then
          scpDownloadDir fuel destPath stripName st1
        else none
    else some st

/-- The filesystem effects recorded in a trace, in order. -/
def fsOps (evs : List Ev) : List FSOp :=
  evs.filterMap (fun e => match e with | .fs op => some op | _ => none)

/-- The bytes written to the channel over a trace, in order. -/
def writtenBytes (evs : List Ev) : List Nat :=
  (evs.map (fun e => match e with | .wr bs => bs | _ => [])).flatten

/-- Modelled from the spec: the remote peer of an upload is a standard scp
sink that acks every header; it parses the C header line (size is the second
space-separated field), stores exactly that many following bytes, and expects
the trailing zero status byte. -/
def scpSinkStored (wire : List Nat) : Option (List Nat) :=
  if (10 : Nat) ∈ wire then
    let line := wire.takeWhile (· ≠ 10)
    let rest := (wire.dropWhile (· ≠ 10)).drop 1
    if line.headD 0 = 67 then
      let parts := splitB 32 line
      if 3 ≤ parts.length then
        match parseInt64 (parts.getD 1 []) with
        | none => none
        | some size =>
          if size.toNat + 1 ≤ rest.length ∧ rest.getD size.toNat 1 = 0 then
            some (rest.take size.toNat)
          else none
      else none
    else none
  else none

/-- Modelled from the spec: the remote peer of a download replays the stored
bytes with a correct C header and a zero status byte. -/
def scpSourceReplay (filename : String) (stored : List Nat) : List Nat :=
  uploadHeader filename stored.length ++ stored ++ [0]

/-- Upload a file to the standard remote peer (which acks every header, so
the upload's reads see zero bytes), let the peer store it, then download the
stored copy the peer replays; returns the downloaded local file content. -/
def scpRoundTrip (filename : String) (content : List Nat) : Option (List Nat) := do
  let stU ← scpUploadFile filename content ⟨[0, 0], []⟩
  let stored ← scpSinkStored (writtenBytes stU.events)
  let (data, _) ← download ⟨scpSourceReplay filename stored, []⟩
  some data

/-- The D header line the scp dialect uses for a directory entry, as written
by fmt.Fprintln(w, "D0755 0", name). -/
def dirHeader (name : List Nat) : List Nat := strBytes "D0755 0 " ++ name ++ [10]

/-- A one-session table used to exhibit the reference semantics of
ListSessions. -/
def sampleTable : SessionTable :=
  ⟨[(gs "s1", ⟨gs "s1", some 1, 0, 0, gs "h", gs "u"⟩)], 100⟩

/-!  Helper lemmas about lists and the embedded primitives. -/

theorem takeWhile_app {α : Type} (p : α → Bool) (l₁ l₂ : List α)
    (h : ∀ a ∈ l₁, p a = true) :
    (l₁ ++ l₂).takeWhile p = l₁ ++ l₂.takeWhile p := by
  induction l₁ with
  | nil => simp
  | cons a l ih =>
    have ha := h a (by simp)
    simp [List.takeWhile_cons, ha, ih (fun b hb => h b (by simp [hb]))]

theorem dropWhile_app {α : Type} (p : α → Bool) (l₁ l₂ : List α)
    (h : ∀ a ∈ l₁, p a = true) :
    (l₁ ++ l₂).dropWhile p = l₂.dropWhile p := by
  induction l₁ with
  | nil => simp
  | cons a l ih =>
    have ha := h a (by simp)
    simp [List.dropWhile_cons, ha, ih (fun b hb => h b (by simp [hb]))]

theorem dropWhile_all {α : Type} (p : α → Bool) (l : List α)
    (h : ∀ a ∈ l, p a = false) : l.dropWhile p = l := by
  cases l with
  | nil => simp
  | cons a t => simp [List.dropWhile_cons, h a (by simp)]

theorem take_len_app {α : Type} (l₁ l₂ : List α) : (l₁ ++ l₂).take l₁.length = l₁ := by
  induction l₁ with
  | nil => simp
  | cons a l ih => simp [ih]

theorem drop_len_app {α : Type} (l₁ l₂ : List α) : (l₁ ++ l₂).drop l₁.length = l₂ := by
  induction l₁ with
  | nil => simp
  | cons a l ih => simp [ih]

theorem getD_len_app {α : Type} (l₁ : List α) (a : α) (l₂ : List α) (d : α) :
    (l₁ ++ a :: l₂).getD l₁.length d = a := by
  induction l₁ with
  | nil => simp
  | cons x l ih => simpa using ih

theorem splitSep_pos {α : Type} [DecidableEq α] (sep : α) (l : List α) :
    0 < (splitSep sep l).length := by
  cases l with
  | nil => simp [splitSep]
  | cons a t =>
    by_cases h : a = sep <;> simp [splitSep, h]

theorem splitSep_no {α : Type} [DecidableEq α] (sep : α) (l : List α)
    (h : sep ∉ l) : splitSep sep l = [l] := by
  induction l with
  | nil => rfl
  | cons a t ih =>
    have ha : a ≠ sep := fun e => h (by simp [e])
    have ht := ih (fun e => h (by simp [e]))
    simp [splitSep, ha, ht]

theorem splitSep_app {α : Type} [DecidableEq α] (sep : α) (l₁ l₂ : List α)
    (h : sep ∉ l₁) :
    splitSep sep (l₁ ++ sep :: l₂) = l₁ :: splitSep sep l₂ := by
  induction l₁ with
  | nil => simp [splitSep]
  | cons a t ih =>
    have ha : a ≠ sep := fun e => h (by simp [e])
    have ht := ih (fun e => h (by simp [e]))
    simp [splitSep, ha, ht]

theorem ndAux_digit {f n d : Nat} (h : d ∈ ndAux f n) : 48 ≤ d ∧ d ≤ 57 := by
  induction f generalizing n with
  | zero => simp [ndAux] at h
  | succ f ih =>
    cases n with
    | zero => simp [ndAux] at h
    | succ m =>
      simp only [ndAux, List.mem_cons] at h
      rcases h with h | h
      · have : (m + 1) % 10 < 10 := Nat.mod_lt _ (by omega)
        omega
      · exact ih h

theorem natDec_digit {n d : Nat} (h : d ∈ natDec n) : 48 ≤ d ∧ d ≤ 57 := by
  by_cases h0 : n = 0
  · simp [natDec, h0] at h
    omega
  · simp only [natDec, h0, if_false, List.mem_reverse] at h
    exact ndAux_digit h

theorem natDec_ne_nil (n : Nat) : natDec n ≠ [] := by
  by_cases h0 : n = 0
  · simp [natDec, h0]
  · have : n ≤ n := le_refl n
    cases n with
    | zero => simp at h0
    | succ m => simp [natDec, ndAux]

theorem foldl_ndAux (f : Nat) : ∀ (n acc : Nat), n ≤ f →
    List.foldl (fun a b => a * 10 + (b - 48)) acc (ndAux f n).reverse =
      acc * 10 ^ (ndAux f n).length + n := by
  induction f with
  | zero =>
    intro n acc h
    have : n = 0 := by omega
    simp [this, ndAux]
  | succ f ih =>
    intro n acc h
    cases n with
    | zero => simp [ndAux]
    | succ m =>
      have hq : (m + 1) / 10 ≤ f := by
        have h10 : (m + 1) / 10 < m + 1 := Nat.div_lt_self (by omega) (by omega)
        omega
      simp only [ndAux, List.reverse_cons, List.foldl_append, List.foldl_cons,
        List.foldl_nil, List.length_cons]
      rw [ih ((m + 1) / 10) acc hq]
      have hmod : (m + 1) % 10 + 48 - 48 = (m + 1) % 10 := by omega
      rw [hmod, pow_succ]
      have := Nat.div_add_mod (m + 1) 10
      ring_nf
      omega

theorem digitsVal_natDec (n : Nat) : digitsVal (natDec n) = n := by
  by_cases h0 : n = 0
  · simp [digitsVal, natDec, h0]
  · simp only [digitsVal, natDec, h0, if_false]
    have := foldl_ndAux n n 0 (le_refl n)
    simpa using this

theorem parseInt64_natDec (n : Nat) (h : n < 2 ^ 63) :
    parseInt64 (natDec n) = some (n : Int) := by
  rcases hd : natDec n with _ | ⟨b, rest⟩
  · exact absurd hd (natDec_ne_nil n)
  · have hb : 48 ≤ b ∧ b ≤ 57 := natDec_digit (by rw [hd]; simp)
    have hall : allDigitsB (b :: rest) = true := by
      simp only [allDigitsB, Bool.and_eq_true, List.all_eq_true]
      constructor
      · simp
      · intro d hdm
        have : 48 ≤ d ∧ d ≤ 57 := natDec_digit (by rw [hd]; exact hdm)
        simp only [Bool.and_eq_true, decide_eq_true_eq]
        omega
    have hval : digitsVal (b :: rest) = n := by rw [← hd]; exact digitsVal_natDec n
    have hb43 : b ≠ 43 := by omega
    have hb45 : b ≠ 45 := by omega
    have hle : digitsVal (b :: rest) ≤ 2 ^ 63 - 1 := by rw [hval]; omega
    simp only [parseInt64, hb43, hb45, hall, hval, hle, if_false, if_true,
      Bool.true_and, decide_eq_true_eq, if_pos]
    simp [hval]
    omega

theorem goHasPre_star {pattern : List Char} (h : goHasPre pattern (gs "*.") = true) :
    ∃ t, pattern = '*' :: '.' :: t := by
  have hgs : gs "*." = ['*', '.'] := by decide
  rw [hgs] at h
  match pattern with
  | [] => simp [goHasPre] at h
  | [a] => simp [goHasPre] at h
  | a :: b :: t =>
    have ha : a = '*' := by
      by_contra hc
      simp [goHasPre, hc] at h
    have hb : b = '.' := by
      by_contra hc
      simp [goHasPre, ha, hc] at h
    exact ⟨t, by simp [ha, hb]⟩

theorem splitSep_shape {α : Type} [DecidableEq α] (sep : α) (l : List α) :
    ∃ g rest, splitSep sep l = g :: rest := by
  have := splitSep_pos sep l
  rcases h : splitSep sep l with _ | ⟨g, rest⟩
  · rw [h] at this; simp at this
  · exact ⟨g, rest, rfl⟩

theorem goParseIP_star (t : List Char) : goParseIP ('*' :: t) = none := by
  obtain ⟨g, rest, hsplit⟩ := splitSep_shape '.' t
  have hstar : ('*' : Char) ≠ '.' := by decide
  have hcs : splitCh '.' ('*' :: t) = ('*' :: g) :: rest := by
    simp [splitCh, splitSep, hstar, hsplit]
  have hfield : ipField ('*' :: g) = none := by
    have : isDigitC '*' = false := by decide
    simp [ipField, this]
  rw [goParseIP, hcs]
  rcases rest with _ | ⟨b, rest⟩
  · rfl
  · rcases rest with _ | ⟨c, rest⟩
    · rfl
    · rcases rest with _ | ⟨d, rest⟩
      · rfl
      · rcases rest with _ | ⟨e, rest⟩
        · simp [hfield]
        · rfl

theorem cidrMatches_of_star (host : List Char) {pattern : List Char}
    (h : goHasPre pattern (gs "*.") = true) : cidrMatches host pattern = false := by
  obtain ⟨t, ht⟩ := goHasPre_star h
  subst ht
  by_cases hs : '/' ∈ '*' :: '.' :: t
  · have haddr : ('*' :: '.' :: t).takeWhile (· ≠ '/') =
        '*' :: (('.' :: t).takeWhile (· ≠ '/')) := by
      simp [List.takeWhile_cons]
    simp only [cidrMatches, parseCIDR, hs, if_pos, haddr, goParseIP_star]
  · simp [cidrMatches, parseCIDR, hs]

/-- C4.  matchHost implements exactly the three-form reference semantics: a
pattern matches a host iff there is exact equality, or the pattern has the
leading-wildcard form *.S and the host ends with .S, or the pattern contains
a slash, parses as a CIDR network and the host parses as an address the
network contains; non-parseable patterns or hosts never match and never
produce an error.  The stated examples are included. -/
theorem matchHost_reference_semantics :
    (∀ host pattern : List Char,
      matchHost host pattern = true ↔
        host = pattern ∨
        (goHasPre pattern (gs "*.") = true ∧ goHasSuf host (pattern.drop 1) = true) ∨
        ('/' ∈ pattern ∧ cidrMatches host pattern = true)) ∧
    matchHost (gs "a.example.com") (gs "*.example.com") = true ∧
    matchHost (gs "example.com") (gs "*.example.com") = false ∧
    matchHost (gs "notexample.com") (gs "*.example.com") = false ∧
    matchHost (gs "192.168.1.10") (gs "192.168.1.0/24") = true ∧
    matchHost (gs "192.168.2.10") (gs "192.168.1.0/24") = false ∧
    matchHost (gs "192.168.1.10") (gs "invalid-cidr") = false ∧
    matchHost (gs "not-an-ip") (gs "192.168.1.0/24") = false := by
  refine ⟨?_, by decide, by decide, by decide, by decide, by decide, by decide, by decide⟩
  intro host pattern
  by_cases h1 : host = pattern
  · simp [matchHost, h1]
  · by_cases h2 : goHasPre pattern (gs "*.") = true
    · have h3 := cidrMatches_of_star host h2
      simp [matchHost, h1, h2, h3]
    · by_cases h4 : '/' ∈ pattern
      · simp [matchHost, h1, h2, h4]
      · simp [matchHost, h1, h2, h4]

/-- C5.  Denied patterns are evaluated before the allow-list: with an empty
allow-list a host matching no denied pattern is allowed, and a host matching
some denied pattern is denied whatever the allow-list holds (matching is
performed on the host after the optional port suffix is stripped, as
CheckHost does). -/
theorem checkHost_deny_precedence (cfg cfg' : SecConfig) (host : List Char)
    (hallow : cfg.allowedHosts = [])
    (hno : ∀ d ∈ cfg.deniedHosts, matchHost (stripPort host) d = false)
    (hyes : ∃ d ∈ cfg'.deniedHosts, matchHost (stripPort host) d = true) :
    checkHost cfg host = true ∧ checkHost cfg' host = false := by
  constructor
  · have hany : cfg.deniedHosts.any (fun d => matchHost (stripPort host) d) = false := by
      simp only [List.any_eq_false]
      intro d hd
      simp [hno d hd]
    simp [checkHost, hany, hallow]
  · have hany : cfg'.deniedHosts.any (fun d => matchHost (stripPort host) d) = true := by
      simp only [List.any_eq_true]
      obtain ⟨d, hd, hm⟩ := hyes
      exact ⟨d, hd, by simp [hm]⟩
    simp [checkHost, hany]

theorem checkHost_deny_precedence_witness :
    checkHost ⟨[], [gs "good.com"], [], [], 0, false⟩ (gs "evil.com") = true ∧
    checkHost ⟨[gs "evil.com"], [gs "evil.com"], [], [], 0, false⟩ (gs "evil.com") = false :=
  checkHost_deny_precedence
    ⟨[], [gs "good.com"], [], [], 0, false⟩
    ⟨[gs "evil.com"], [gs "evil.com"], [], [], 0, false⟩
    (gs "evil.com")
    (by decide) (by decide) (by decide)

theorem cmdRules_state (cfg : SecConfig) (cmd : List Char)
    (rl : List (List Char × Int)) : (cmdRules cfg cmd rl).2 = rl := by
  unfold cmdRules
  split_ifs <;> rfl

theorem cmdRules_not_rateLimited (cfg : SecConfig) (cmd : List Char)
    (rl : List (List Char × Int)) : (cmdRules cfg cmd rl).1 ≠ .rateLimited := by
  unfold cmdRules
  split_ifs <;> simp

theorem alLookup_store_self (k : List Char) (v : Int) (l : List (List Char × Int)) :
    alLookup k (alStore k v l) = some v := by
  induction l with
  | nil => simp [alStore, alLookup]
  | cons p rest ih =>
    by_cases h : k = p.1
    · simp [alStore, alLookup, h]
    · simp [alStore, alLookup, h, ih]

/-- C6 counterexample.  With a rate limit configured and "rm" denied, a
checkCommand call that returns the denied-command error nevertheless writes
the current time into the rate-limiter map (the timestamp is stored before
the command lists are consulted), so a denial does not always leave the
rate-limiter state untouched. -/
theorem checkCommand_denied_updates_counterexample :
    (checkCommand ⟨[], [], [], [gs "rm"], 100, false⟩ 5 (gs "s1") (gs "rm -rf /") []).1 =
      .cmdDenied ∧
    (checkCommand ⟨[], [], [], [gs "rm"], 100, false⟩ 5 (gs "s1") (gs "rm -rf /") []).2 =
      [(gs "s1", 5)] ∧
    ([] : List (List Char × Int)) ≠ [(gs "s1", 5)] := by
  refine ⟨by decide, by decide, by decide⟩

/-- C6 amended.  The rate-limiter timestamp for a session is left untouched
exactly when the rate-limit check itself fails (or no rate limit is
configured); whenever the rate-limit check passes and a rate limit is
configured, the timestamp is refreshed to the current time even if the
command is then rejected by the denied/allowed command lists. -/
theorem checkCommand_rate_clock (cfg : SecConfig) (now : Int) (sid cmd : List Char)
    (rl : List (List Char × Int)) :
    ((checkCommand cfg now sid cmd rl).1 = .rateLimited →
      (checkCommand cfg now sid cmd rl).2 = rl) ∧
    (cfg.rateLimit ≤ 0 → (checkCommand cfg now sid cmd rl).2 = rl) ∧
    (0 < cfg.rateLimit → (checkCommand cfg now sid cmd rl).1 ≠ .rateLimited →
      alLookup sid (checkCommand cfg now sid cmd rl).2 = some now) := by
  refine ⟨?_, ?_, ?_⟩
  · intro h
    by_cases hr : 0 < cfg.rateLimit
    · rcases hl : alLookup sid rl with _ | lastOp
      · have he : (checkCommand cfg now sid cmd rl).1 =
            (cmdRules cfg cmd (alStore sid now rl)).1 := by
          simp [checkCommand, hr, hl]
        rw [he] at h
        exact absurd h (cmdRules_not_rateLimited _ _ _)
      · by_cases hlt : now - lastOp < cfg.rateLimit
        · simp [checkCommand, hr, hl, hlt]
        · have he : (checkCommand cfg now sid cmd rl).1 =
              (cmdRules cfg cmd (alStore sid now rl)).1 := by
            simp [checkCommand, hr, hl, hlt]
          rw [he] at h
          exact absurd h (cmdRules_not_rateLimited _ _ _)
    · have he : (checkCommand cfg now sid cmd rl).1 = (cmdRules cfg cmd rl).1 := by
        simp [checkCommand, hr]
      rw [he] at h
      exact absurd h (cmdRules_not_rateLimited _ _ _)
  · intro h
    have hr : ¬ 0 < cfg.rateLimit := by omega
    simp [checkCommand, hr, cmdRules_state]
  · intro hr hnot
    rcases hl : alLookup sid rl with _ | lastOp
    · simp [checkCommand, hr, hl, cmdRules_state, alLookup_store_self]
    · by_cases hlt : now - lastOp < cfg.rateLimit
      · exact absurd (by simp [checkCommand, hr, hl, hlt]) hnot
      · simp [checkCommand, hr, hl, hlt, cmdRules_state, alLookup_store_self]

theorem checkCommand_rate_clock_witness :
    alLookup (gs "s1")
      (checkCommand ⟨[], [], [], [gs "rm"], 100, false⟩ 5 (gs "s1") (gs "rm -rf /") []).2 =
      some 5 :=
  (checkCommand_rate_clock ⟨[], [], [], [gs "rm"], 100, false⟩ 5 (gs "s1") (gs "rm -rf /")
    []).2.2 (by decide) (by decide)

theorem cleanupLoop_spec (now expiry : Int) (l : List (List Char × GoSession)) :
    cleanupLoop now expiry l =
      (l.filter (fun p => !decide (expiry < now - p.2.lastActivity)),
       (l.filter (fun p => decide (expiry < now - p.2.lastActivity))).filterMap
         (fun p => p.2.client),
       (l.filter (fun p => decide (expiry < now - p.2.lastActivity))).length) := by
  induction l with
  | nil => simp [cleanupLoop]
  | cons p rest ih =>
    rcases p with ⟨id, s⟩
    by_cases h : expiry < now - s.lastActivity
    · rcases hc : s.client with _ | hdl <;>
        simp [cleanupLoop, h, ih, hc, Option.toList]
    · simp [cleanupLoop, h, ih]

/-- C7.  CleanupExpiredSessions removes exactly the sessions whose idle time
strictly exceeds the expiry, the trace of Close calls is exactly one close
per removed session that has a non-nil client (so, handles being distinct,
each handle is closed once and the kept sessions' handles are untouched),
and the returned count is the number removed. -/
theorem cleanupExpiredSessions_exact (now : Int) (m : SessionTable)
    (hnd : (m.sessions.filterMap (fun p => p.2.client)).Nodup) :
    (cleanupExpiredSessions now m).1 =
      { sessions :=
          m.sessions.filter (fun p => !decide (m.sessionExpiry < now - p.2.lastActivity)),
        sessionExpiry := m.sessionExpiry } ∧
    (cleanupExpiredSessions now m).2.1 =
      (m.sessions.filter (fun p => decide (m.sessionExpiry < now - p.2.lastActivity))).filterMap
        (fun p => p.2.client) ∧
    (cleanupExpiredSessions now m).2.2 =
      (m.sessions.filter (fun p => decide (m.sessionExpiry < now - p.2.lastActivity))).length ∧
    (cleanupExpiredSessions now m).2.1.Nodup := by
  have hs := cleanupLoop_spec now m.sessionExpiry m.sessions
  refine ⟨?_, ?_, ?_, ?_⟩
  · simp [cleanupExpiredSessions, hs]
  · simp [cleanupExpiredSessions, hs]
  · simp [cleanupExpiredSessions, hs]
  · have h2 : (cleanupExpiredSessions now m).2.1 =
        (m.sessions.filter
          (fun p => decide (m.sessionExpiry < now - p.2.lastActivity))).filterMap
          (fun p => p.2.client) := by
      simp [cleanupExpiredSessions, hs]
    rw [h2]
    exact hnd.sublist ((List.filter_sublist m.sessions).filterMap (fun p => p.2.client))

theorem cleanupExpiredSessions_exact_witness :
    (cleanupExpiredSessions 120
      ⟨[(gs "s1", ⟨gs "s1", some 1, 0, 0, gs "h", gs "u"⟩),
        (gs "s2", ⟨gs "s2", some 2, 0, 100, gs "h", gs "u"⟩)], 50⟩).2.1 = [1] ∧
    (cleanupExpiredSessions 120
      ⟨[(gs "s1", ⟨gs "s1", some 1, 0, 0, gs "h", gs "u"⟩),
        (gs "s2", ⟨gs "s2", some 2, 0, 100, gs "h", gs "u"⟩)], 50⟩).2.2 = 1 := by
  have h := cleanupExpiredSessions_exact 120
    ⟨[(gs "s1", ⟨gs "s1", some 1, 0, 0, gs "h", gs "u"⟩),
      (gs "s2", ⟨gs "s2", some 2, 0, 100, gs "h", gs "u"⟩)], 50⟩ (by decide)
  exact ⟨h.2.1.trans (by decide), h.2.2.1.trans (by decide)⟩

theorem lsLoop_filterMap (ls : List (List Char)) :
    lsLoop ls = ls.filterMap (fun line =>
      if line = [] ∨ goHasPre line (gs "total ") = true ∨ (goFields line).length < 9 then
        none
      else some (mkLsEntry (goFields line))) := by
  induction ls with
  | nil => rfl
  | cons line rest ih =>
    by_cases h1 : line = []
    · simp [lsLoop, h1, ih]
    · by_cases h2 : goHasPre line (gs "total ") = true
      · simp [lsLoop, h1, h2, ih]
      · by_cases h3 : (goFields line).length < 9
        · simp [lsLoop, h1, h2, h3, ih]
        · simp [lsLoop, h1, h2, h3, ih]

/-- C8.  ListDirectory parsing: a line produces no entry iff it is empty,
starts with "total ", or has fewer than 9 whitespace-separated fields; a kept
line yields permissions = field 0, size = field 4, date = fields 5-7 joined
by spaces, name = fields 8 onward joined by spaces, isDirectory iff the
permission string starts with d.  The stated two-entry example is included. -/
theorem listDirectory_parsing :
    (∀ output : List Char,
      listDirectory output = (splitCh '\n' output).filterMap (fun line =>
        if line = [] ∨ goHasPre line (gs "total ") = true ∨ (goFields line).length < 9 then
          none
        else some
          { permissions := (goFields line).getD 0 []
            size := (goFields line).getD 4 []
            date := joinSpace (((goFields line).drop 5).take 3)
            name := joinSpace ((goFields line).drop 8)
            isDirectory := ((goFields line).getD 0 []).headD ' ' = 'd' })) ∧
    listDirectory
        (gs "total 16\ndrwxr-xr-x 2 user group 4096 Jan 1 12:00 mydir\n-rw-r--r-- 1 user group 123 Jan 2 13:00 notes.txt\n") =
      [⟨gs "mydir", gs "drwxr-xr-x", gs "4096", gs "Jan 1 12:00", true⟩,
       ⟨gs "notes.txt", gs "-rw-r--r--", gs "123", gs "Jan 2 13:00", false⟩] := by
  constructor
  · intro output
    exact lsLoop_filterMap (splitCh '\n' output)
  · decide

theorem sessWrite_map_fst (k : List Char) (v : GoSession)
    (l : List (List Char × GoSession)) :
    (sessWrite k v l).map (fun p => p.1) = l.map (fun p => p.1) := by
  induction l with
  | nil => rfl
  | cons p rest ih =>
    simp only [sessWrite, List.map_cons, ih]
    by_cases h : p.1 = k
    · rw [if_pos h, h]
    · rw [if_neg h]

theorem sessLookup_write_self (k : List Char) (v : GoSession)
    (l : List (List Char × GoSession)) :
    sessLookup k (sessWrite k v l) = (sessLookup k l).map (fun _ => v) := by
  induction l with
  | nil => simp [sessWrite, sessLookup]
  | cons p rest ih =>
    simp only [sessWrite]
    by_cases h : p.1 = k
    · rw [if_pos h]
      simp only [sessLookup]
      rw [if_pos h.symm, if_pos h.symm]
      rfl
    · have h' : ¬ k = p.1 := fun e => h e.symm
      rw [if_neg h]
      simp only [sessLookup]
      rw [if_neg h', if_neg h']
      exact ih

theorem sessLookup_write_other {r k : List Char} (hne : r ≠ k) (v : GoSession)
    (l : List (List Char × GoSession)) :
    sessLookup r (sessWrite k v l) = sessLookup r l := by
  induction l with
  | nil => simp [sessWrite]
  | cons p rest ih =>
    simp only [sessWrite]
    by_cases h : p.1 = k
    · have h' : ¬ r = p.1 := by rw [h]; exact hne
      rw [if_pos h]
      simp only [sessLookup]
      rw [if_neg h', if_neg h']
      exact ih
    · rw [if_neg h]
      simp only [sessLookup]
      by_cases h2 : r = p.1
      · rw [if_pos h2, if_pos h2]
      · rw [if_neg h2, if_neg h2]
        exact ih

theorem sessLookup_some_of_mem {id : List Char} {l : List (List Char × GoSession)}
    (h : id ∈ l.map (fun p => p.1)) : ∃ s, sessLookup id l = some s := by
  induction l with
  | nil => simp at h
  | cons p rest ih =>
    by_cases he : id = p.1
    · refine ⟨p.2, ?_⟩
      simp only [sessLookup]
      rw [if_pos he]
    · have hmem : id ∈ rest.map (fun p => p.1) := by
        simp only [List.map_cons, List.mem_cons] at h
        rcases h with h | h
        · exact absurd h he
        · exact h
      obtain ⟨s, hs⟩ := ih hmem
      refine ⟨s, ?_⟩
      simp only [sessLookup]
      rw [if_neg he]
      exact hs

/-- C9 counterexample.  ListSessions returns the live *Session pointers, not
value snapshots: after a later GetSession refreshes lastActivity, reading the
session through the reference returned by the earlier ListSessions call sees
the new value (0 became 5), so the listed session values are not immutable
point-in-time copies. -/
theorem listSessions_alias_counterexample :
    listSessions sampleTable = [gs "s1"] ∧
    (sessLookup (gs "s1") sampleTable.sessions).map (fun s => s.lastActivity) = some 0 ∧
    (sessLookup (gs "s1") ((getSession 5 (gs "s1") sampleTable).2).sessions).map
      (fun s => s.lastActivity) = some 5 ∧
    (5 : Int) ≠ 0 := by
  refine ⟨by decide, by decide, by decide, by decide⟩

/-- C9 amended.  ListSessions is a point-in-time copy of the slice of session
references (a later GetSession neither adds nor removes listed sessions), but
the referenced session objects are shared: a later GetSession on one id leaves
every other listed session's value unchanged while its own lastActivity,
read through the previously returned reference, becomes the refresh time. -/
theorem listSessions_reference_semantics (m : SessionTable) (now : Int)
    (id r : List Char) (hr : r ∈ listSessions m) (hne : r ≠ id) :
    listSessions (getSession now id m).2 = listSessions m ∧
    sessLookup r (getSession now id m).2.sessions = sessLookup r m.sessions ∧
    (id ∈ listSessions m →
      (sessLookup id (getSession now id m).2.sessions).map (fun s => s.lastActivity) =
        some now) := by
  rcases hl : sessLookup id m.sessions with _ | s
  · refine ⟨by simp [getSession, hl], by simp [getSession, hl], ?_⟩
    intro hid
    obtain ⟨s, hs⟩ :=
      sessLookup_some_of_mem (show id ∈ m.sessions.map (fun p => p.1) from hid)
    rw [hl] at hs
    simp at hs
  · refine ⟨?_, ?_, ?_⟩
    · simp [getSession, hl, listSessions, sessWrite_map_fst]
    · simp [getSession, hl, sessLookup_write_other hne]
    · intro _
      simp [getSession, hl, sessLookup_write_self]

theorem listSessions_reference_semantics_witness :
    listSessions (getSession 5 (gs "s2") sampleTable).2 = listSessions sampleTable :=
  (listSessions_reference_semantics sampleTable 5 (gs "s2") (gs "s1")
    (by decide) (by decide)).1

theorem chReadLine_split (pre rest : List Nat) (evs : List Ev)
    (hpre : (10 : Nat) ∉ pre) :
    chReadLine ⟨pre ++ 10 :: rest, evs⟩ =
      some (pre ++ [10], ⟨rest, evs ++ [.rdLine (pre ++ [10])]⟩) := by
  have hmem : (10 : Nat) ∈ pre ++ 10 :: rest := by simp
  have hp : ∀ a ∈ pre, (fun x => !decide (x = 10)) a = true := by
    intro a ha
    simp only [Bool.not_eq_eq_eq_not, Bool.not_true, decide_eq_false_iff_not]
    exact fun e => hpre (e ▸ ha)
  have htw : (pre ++ 10 :: rest).takeWhile (fun x => !decide (x = 10)) = pre := by
    rw [takeWhile_app _ pre (10 :: rest) hp]
    simp [List.takeWhile_cons]
  have hdw : (pre ++ 10 :: rest).dropWhile (fun x => !decide (x = 10)) = 10 :: rest := by
    rw [dropWhile_app _ pre (10 :: rest) hp]
    simp [List.dropWhile_cons]
  simp [chReadLine, hmem, htw, hdw]

theorem chReadN_ap (data tail : List Nat) (evs : List Ev) :
    chReadN data.length ⟨data ++ tail, evs⟩ =
      some (data, ⟨tail, evs ++ [.rdData data]⟩) := by
  have hlen : ¬ (data ++ tail).length < data.length := by simp
  simp [chReadN, hlen, take_len_app, drop_len_app]

theorem scpUploadFile_run (filename : String) (content : List Nat)
    (rest : List Nat) (evs : List Ev) :
    scpUploadFile filename content ⟨0 :: 0 :: rest, evs⟩ =
      some ⟨rest, evs ++ [.wr (uploadHeader filename content.length), .rdB 0,
        .wr content, .wr [0], .rdB 0]⟩ := by
  simp [scpUploadFile, checkSCPStatus, chWrite, chReadB]

theorem scpDownloadDir_eof (fuel : Nat) (destPath : List (List Nat))
    (stripName : Bool) (st : Chan) (heof : (10 : Nat) ∉ st.input) :
    scpDownloadDir (fuel + 1) destPath stripName st = some st := by
  simp [scpDownloadDir, heof]

/-- C2 amended.  Whenever the remote side supplies acknowledgment bytes, the
single-file upload's channel trace is: write the C header, read an
acknowledgment byte (this consumes the remote's initial ack, which the engine
never waits for before the header), write the file data, write the trailing
zero, read an acknowledgment byte — two reads in total, starting with a
write. -/
theorem upload_ack_trace (filename : String) (content : List Nat) (rest : List Nat) :
    scpUploadFile filename content ⟨0 :: 0 :: rest, []⟩ =
      some ⟨rest, [.wr (uploadHeader filename content.length), .rdB 0,
        .wr content, .wr [0], .rdB 0]⟩ := by
  simpa using scpUploadFile_run filename content rest []

/-- C2 counterexample.  At a concrete input the first channel action of the
upload engine is writing the C header, not reading the remote's initial
acknowledgment, and the engine performs two reads rather than three, so the
claimed trace (read ack, write header, read ack, write data, write 0, read
ack) is not the trace of the code. -/
theorem upload_ack_trace_counterexample :
    (scpUploadFile "f" [65] ⟨[0, 0], []⟩).map (fun st => st.events) =
      some [.wr (uploadHeader "f" 1), .rdB 0, .wr [65], .wr [0], .rdB 0] ∧
    (scpUploadFile "f" [65] ⟨[0, 0], []⟩).map (fun st => st.events) ≠
      some [.rdB 0, .wr (uploadHeader "f" 1), .rdB 0, .wr [65], .wr [0], .rdB 0] := by
  refine ⟨by decide, by decide⟩

/-- C3 counterexample.  The single-file Download rejects a timestamp header:
on a stream that sends a T line followed by a perfectly valid C transfer, the
operation fails instead of acknowledging and skipping the T line. -/
theorem download_T_counterexample :
    download ⟨strBytes "T1 2\n" ++ (strBytes "C0644 1 f\n" ++ [65, 0]), []⟩ = none := by
  decide

/-- C3 amended.  Only the directory-download consumer tolerates timestamp
headers: scpDownloadDir acknowledges a T line with a zero byte and proceeds
to the rest of the stream (the following C or D header), while the
single-file Download fails on any header line that starts with T because it
requires a C header. -/
theorem scpDownloadDir_T_skip (fuel : Nat) (destPath : List (List Nat))
    (stripName : Bool) (mid rest : List Nat) (evs : List Ev)
    (hmid : (10 : Nat) ∉ mid) :
    scpDownloadDir (fuel + 1) destPath stripName ⟨84 :: (mid ++ 10 :: rest), evs⟩ =
      scpDownloadDir fuel destPath stripName
        ⟨rest, evs ++ [.rdLine (84 :: (mid ++ [10])), .wr [0]]⟩ ∧
    (∀ st : Chan, st.input.headD 0 = 84 → download st = none) := by
  constructor
  · have hpre : (10 : Nat) ∉ 84 :: mid := by
      intro h
      rcases List.mem_cons.mp h with h | h
      · omega
      · exact hmid h
    have hrl := chReadLine_split (84 :: mid) rest evs hpre
    have hmem : (10 : Nat) ∈ (84 :: mid) ++ 10 :: rest := by simp
    rw [show (84 :: (mid ++ 10 :: rest) : List Nat) = (84 :: mid) ++ 10 :: rest by simp]
    simp only [scpDownloadDir]
    rw [if_pos hmem, hrl]
    simp [chWrite]
  · intro st hhd
    rcases hin : st.input with _ | ⟨b, tl⟩
    · rw [hin] at hhd
      simp at hhd
    · rw [hin] at hhd
      simp at hhd
      subst hhd
      simp only [download, chWrite, chReadLine, hin]
      by_cases hmem : (10 : Nat) ∈ (84 : Nat) :: tl
      · rw [if_pos hmem]
        have htw : ((84 : Nat) :: tl).takeWhile (fun b => decide (b ≠ 10)) =
            84 :: tl.takeWhile (fun b => decide (b ≠ 10)) := by
          simp [List.takeWhile_cons]
        rw [htw]
        simp
      · rw [if_neg hmem]
        rfl

theorem scpDownloadDir_T_skip_witness :
    scpDownloadDir 1 [] false ⟨84 :: ([49] ++ 10 :: []), []⟩ =
      scpDownloadDir 0 [] false ⟨[], [.rdLine (84 :: ([49] ++ [10])), .wr [0]]⟩ := by
  have h := (scpDownloadDir_T_skip 0 [] false [49] [] [] (by decide)).1
  simpa using h

theorem trimNL_app {n : List Nat} (hn : (10 : Nat) ∉ n) : trimNL (n ++ [10]) = n := by
  have hall : ∀ a ∈ n.reverse, (fun x => decide (x = 10)) a = false := by
    intro a ha
    simp only [decide_eq_false_iff_not]
    exact fun e => hn (e ▸ List.mem_reverse.mp ha)
  have h1 : (n ++ [10]).reverse = 10 :: n.reverse := by simp
  rw [trimNL, h1, List.dropWhile_cons]
  simp [dropWhile_all _ _ hall]

theorem splitN3_dirHeader (name : List Nat) :
    splitN3 32 (dirHeader name) = [[68, 48, 55, 53, 53], [48], name ++ [10]] := by
  have hstr : strBytes "D0755 0 " = [68, 48, 55, 53, 53, 32, 48, 32] := by decide
  have hshape : dirHeader name =
      [68, 48, 55, 53, 53] ++ 32 :: (48 :: 32 :: (name ++ [10])) := by
    simp [dirHeader, hstr]
  have hp : ∀ a ∈ ([68, 48, 55, 53, 53] : List Nat),
      (fun x => !decide (x = 32)) a = true := by decide
  have htw : ([68, 48, 55, 53, 53] ++ 32 :: (48 :: 32 :: (name ++ [10]))).takeWhile
      (fun x => !decide (x = 32)) = [68, 48, 55, 53, 53] := by
    rw [takeWhile_app _ _ _ hp]
    simp [List.takeWhile_cons]
  have hdw : ([68, 48, 55, 53, 53] ++ 32 :: (48 :: 32 :: (name ++ [10]))).dropWhile
      (fun x => !decide (x = 32)) = 32 :: (48 :: 32 :: (name ++ [10])) := by
    rw [dropWhile_app _ _ _ hp]
    simp [List.dropWhile_cons]
  have hmem : (32 : Nat) ∈ [68, 48, 55, 53, 53] ++ 32 :: (48 :: 32 :: (name ++ [10])) := by
    simp
  rw [hshape]
  simp [splitN3, hmem, htw, hdw, List.takeWhile_cons, List.dropWhile_cons]

theorem scpDownloadDir_D_step (f : Nat) (dest : List (List Nat)) (strip : Bool)
    (name rest : List Nat) (evs : List Ev) (hn : (10 : Nat) ∉ name)
    (dirPath : List (List Nat)) (hdir : dirPath = if strip then dest else dest ++ [name]) :
    scpDownloadDir (f + 1) dest strip ⟨dirHeader name ++ rest, evs⟩ =
      (match scpDownloadDir f dirPath false
          ⟨rest, evs ++ [.rdLine (dirHeader name), .wr [0],
            .fs (.mkdirAll dirPath)]⟩ with
        | none => none
        | some st4 => scpDownloadDir f dest strip st4) := by
  subst hdir
  have hstr : strBytes "D0755 0 " = [68, 48, 55, 53, 53, 32, 48, 32] := by decide
  have hpre : (10 : Nat) ∉ strBytes "D0755 0 " ++ name := by
    intro h
    rcases List.mem_append.mp h with h | h
    · rw [hstr] at h
      simp at h
    · exact hn h
  have happ : dirHeader name ++ rest = (strBytes "D0755 0 " ++ name) ++ 10 :: rest := by
    simp [dirHeader]
  have hrl := chReadLine_split (strBytes "D0755 0 " ++ name) rest evs hpre
  have hline : (strBytes "D0755 0 " ++ name) ++ [10] = dirHeader name := by
    simp [dirHeader]
  have hmem : (10 : Nat) ∈ (strBytes "D0755 0 " ++ name) ++ 10 :: rest := by simp
  have hhd : (dirHeader name).head?.getD 0 = 68 := by
    simp [dirHeader, hstr]
  rw [happ]
  simp only [scpDownloadDir]
  rw [if_pos hmem, hrl, hline]
  simp [hhd, splitN3_dirHeader, trimNL_app hn, chWrite, chFs]

/-- C10.  In the recursive directory-download consumer, end of stream while
reading the next header returns success at every recursion depth (first
conjunct: any fuel, destination, stripName and channel whose remaining input
holds no newline), so a stream that opens nested directories with D headers
and then ends before any E end marker makes the whole download succeed with
only the partially materialized directory tree (second conjunct: the two
mkdirAll effects are the entire filesystem trace and the result is success). -/
theorem downloadDir_eof_success (fuel f2 : Nat) (destPath : List (List Nat))
    (stripName : Bool) (st : Chan) (heof : (10 : Nat) ∉ st.input)
    (dest2 : List (List Nat)) (n1 n2 tail : List Nat)
    (h1 : (10 : Nat) ∉ n1) (h2 : (10 : Nat) ∉ n2) (htail : (10 : Nat) ∉ tail) :
    scpDownloadDir (fuel + 1) destPath stripName st = some st ∧
    scpDownloadDir (f2 + 3) dest2 true ⟨dirHeader n1 ++ (dirHeader n2 ++ tail), []⟩ =
      some ⟨tail, [.rdLine (dirHeader n1), .wr [0], .fs (.mkdirAll dest2),
        .rdLine (dirHeader n2), .wr [0], .fs (.mkdirAll (dest2 ++ [n2]))]⟩ := by
  refine ⟨scpDownloadDir_eof fuel destPath stripName st heof, ?_⟩
  rw [show f2 + 3 = (f2 + 2) + 1 from rfl]
  rw [scpDownloadDir_D_step (f2 + 2) dest2 true n1 (dirHeader n2 ++ tail) [] h1 dest2 rfl]
  rw [show f2 + 2 = (f2 + 1) + 1 from rfl]
  rw [scpDownloadDir_D_step (f2 + 1) dest2 false n2 tail _ h2 (dest2 ++ [n2]) rfl]
  simp [scpDownloadDir_eof, htail]

theorem downloadDir_eof_success_witness :
    scpDownloadDir 1 [] false ⟨[], []⟩ = some ⟨[], []⟩ ∧
    scpDownloadDir 3 [[100]] true ⟨dirHeader [97] ++ (dirHeader [98] ++ []), []⟩ =
      some ⟨[], [.rdLine (dirHeader [97]), .wr [0], .fs (.mkdirAll [[100]]),
        .rdLine (dirHeader [98]), .wr [0], .fs (.mkdirAll ([[100]] ++ [[98]]))]⟩ :=
  downloadDir_eof_success 0 0 [] false ⟨[], []⟩ (by decide) [[100]] [97] [98] []
    (by decide) (by decide) (by decide)

theorem notMem_pred (v : Nat) (l : List Nat) (h : v ∉ l) :
    ∀ a ∈ l, (fun x => !decide (x = v)) a = true := by
  intro a ha
  simp only [Bool.not_eq_eq_eq_not, Bool.not_true, decide_eq_false_iff_not]
  exact fun e => h (e ▸ ha)

theorem uploadHeader_shape (filename : String) (n : Nat) :
    uploadHeader filename n =
      ([67, 48, 54, 52, 52] ++ 32 :: (natDec n ++ 32 :: strBytes filename)) ++ [10] := by
  have hC : strBytes "C0644 " = [67, 48, 54, 52, 52, 32] := by decide
  simp [uploadHeader, hC]

theorem pre_no_newline (filename : String) (n : Nat)
    (hname : (10 : Nat) ∉ strBytes filename) :
    (10 : Nat) ∉ [67, 48, 54, 52, 52] ++ 32 :: (natDec n ++ 32 :: strBytes filename) := by
  intro h
  rcases List.mem_append.mp h with h | h
  · revert h; decide
  · rcases List.mem_cons.mp h with h | h
    · omega
    · rcases List.mem_append.mp h with h | h
      · have := natDec_digit h
        omega
      · rcases List.mem_cons.mp h with h | h
        · omega
        · exact hname h

theorem splitB_header (n : Nat) (tail : List Nat) :
    splitB 32 ([67, 48, 54, 52, 52] ++ 32 :: (natDec n ++ 32 :: tail)) =
      [67, 48, 54, 52, 52] :: natDec n :: splitB 32 tail := by
  have h1 : (32 : Nat) ∉ ([67, 48, 54, 52, 52] : List Nat) := by decide
  have h2 : (32 : Nat) ∉ natDec n := by
    intro h
    have := natDec_digit h
    omega
  show splitSep 32 _ = [67, 48, 54, 52, 52] :: natDec n :: splitSep 32 tail
  rw [splitSep_app 32 _ _ h1, splitSep_app 32 _ _ h2]

theorem scpSinkStored_header (filename : String) (content : List Nat)
    (hname : (10 : Nat) ∉ strBytes filename) (hlen : content.length < 2 ^ 63) :
    scpSinkStored (uploadHeader filename content.length ++ (content ++ [0])) =
      some content := by
  have hpre10 : (10 : Nat) ∉
      [67, 48, 54, 52, 52] ++ 32 :: (natDec content.length ++ 32 :: strBytes filename) :=
    pre_no_newline filename content.length hname
  have hwire : uploadHeader filename content.length ++ (content ++ [0]) =
      ([67, 48, 54, 52, 52] ++ 32 :: (natDec content.length ++ 32 :: strBytes filename)) ++
        10 :: (content ++ [0]) := by
    rw [uploadHeader_shape]
    simp
  have hp : ∀ a ∈ [67, 48, 54, 52, 52] ++
      32 :: (natDec content.length ++ 32 :: strBytes filename),
      (fun x => decide (x ≠ 10)) a = true := by
    intro a ha
    simp only [decide_eq_true_eq]
    exact fun e => hpre10 (e ▸ ha)
  have htw : (([67, 48, 54, 52, 52] ++
      32 :: (natDec content.length ++ 32 :: strBytes filename)) ++
        10 :: (content ++ [0])).takeWhile (fun x => decide (x ≠ 10)) =
      [67, 48, 54, 52, 52] ++ 32 :: (natDec content.length ++ 32 :: strBytes filename) := by
    rw [takeWhile_app _ _ _ hp]
    simp [List.takeWhile_cons]
  have hdw : (([67, 48, 54, 52, 52] ++
      32 :: (natDec content.length ++ 32 :: strBytes filename)) ++
        10 :: (content ++ [0])).dropWhile (fun x => decide (x ≠ 10)) =
      10 :: (content ++ [0]) := by
    rw [dropWhile_app _ _ _ hp]
    simp [List.dropWhile_cons]
  have hmem : (10 : Nat) ∈ ([67, 48, 54, 52, 52] ++
      32 :: (natDec content.length ++ 32 :: strBytes filename)) ++ 10 :: (content ++ [0]) := by
    simp
  have hlen3 : 3 ≤ ([67, 48, 54, 52, 52] :: natDec content.length ::
      splitB 32 (strBytes filename)).length := by
    have h := splitSep_pos 32 (strBytes filename)
    simp only [List.length_cons, splitB]
    omega
  have hget : (content ++ [0]).getD content.length 1 = 0 := by
    have := getD_len_app content 0 [] 1
    simpa using this
  have hlen2 : content.length + 1 ≤ (content ++ [0]).length := by simp
  have hhd : (([67, 48, 54, 52, 52] : List Nat) ++
      32 :: (natDec content.length ++ 32 :: strBytes filename)).headD 0 = 67 := by simp
  have hne : splitB 32 (strBytes filename) ≠ [] := by
    have h := splitSep_pos 32 (strBytes filename)
    intro e
    rw [show splitB 32 (strBytes filename) = splitSep 32 (strBytes filename) from rfl] at e
    rw [e] at h
    simp at h
  rw [hwire]
  simp only [scpSinkStored, hmem, if_pos, htw, hdw]
  rw [splitB_header content.length (strBytes filename), hhd]
  simp only [List.getD_cons_succ, List.getD_cons_zero,
    parseInt64_natDec content.length hlen]
  simp [hlen3, hget, hlen2, take_len_app, Int.toNat_natCast, hne]

theorem download_replay (filename : String) (stored : List Nat)
    (hname : (10 : Nat) ∉ strBytes filename) (hlen : stored.length < 2 ^ 63) :
    (download ⟨scpSourceReplay filename stored, []⟩).map (fun r => r.1) = some stored := by
  have hpre10 : (10 : Nat) ∉
      [67, 48, 54, 52, 52] ++ 32 :: (natDec stored.length ++ 32 :: strBytes filename) :=
    pre_no_newline filename stored.length hname
  have hreplay : scpSourceReplay filename stored =
      ([67, 48, 54, 52, 52] ++ 32 :: (natDec stored.length ++ 32 :: strBytes filename)) ++
        10 :: (stored ++ [0]) := by
    rw [scpSourceReplay, uploadHeader_shape]
    simp
  have hrl := chReadLine_split
    ([67, 48, 54, 52, 52] ++ 32 :: (natDec stored.length ++ 32 :: strBytes filename))
    (stored ++ [0]) [.wr [0]] hpre10
  have hsplit : splitB 32
      (([67, 48, 54, 52, 52] ++ 32 :: (natDec stored.length ++ 32 :: strBytes filename)) ++
        [10]) =
      [67, 48, 54, 52, 52] :: natDec stored.length ::
        splitB 32 (strBytes filename ++ [10]) := by
    have hsh : ([67, 48, 54, 52, 52] ++
        32 :: (natDec stored.length ++ 32 :: strBytes filename)) ++ [10] =
        [67, 48, 54, 52, 52] ++
          32 :: (natDec stored.length ++ 32 :: (strBytes filename ++ [10])) := by
      simp
    rw [hsh, splitB_header]
  have hlen3 : ¬ ([67, 48, 54, 52, 52] :: natDec stored.length ::
      splitB 32 (strBytes filename ++ [10])).length < 3 := by
    have h := splitSep_pos 32 (strBytes filename ++ [10])
    simp only [List.length_cons, splitB, not_lt]
    omega
  rw [hreplay]
  simp only [download, chWrite]
  rw [show ((⟨([67, 48, 54, 52, 52] ++
      32 :: (natDec stored.length ++ 32 :: strBytes filename)) ++ 10 :: (stored ++ [0]),
      [] ++ [Ev.wr [0]]⟩ : Chan)) = ⟨([67, 48, 54, 52, 52] ++
      32 :: (natDec stored.length ++ 32 :: strBytes filename)) ++ 10 :: (stored ++ [0]),
      [.wr [0]]⟩ by simp]
  have hne : splitB 32 (strBytes filename ++ [10]) ≠ [] := by
    have h := splitSep_pos 32 (strBytes filename ++ [10])
    intro e
    rw [show splitB 32 (strBytes filename ++ [10]) =
      splitSep 32 (strBytes filename ++ [10]) from rfl] at e
    rw [e] at h
    simp at h
  have hhd : ((([67, 48, 54, 52, 52] : List Nat) ++
      32 :: (natDec stored.length ++ 32 :: strBytes filename)) ++ [10]).headD 0 = 67 := by
    simp
  rw [hrl]
  simp only [Option.bind_eq_bind, Option.some_bind]
  rw [hsplit]
  simp [hhd, hlen3, hne, parseInt64_natDec stored.length hlen, chReadN_ap, chReadB]
  exact splitSep_pos 32 (strBytes filename ++ [10])

/-- C1.  Upload/download round trip: for every file content (of any length
below the int64 bound; in particular sizes 0, 1 and sizes spanning many read
buffers) and every filename without a newline byte, uploading against the
standard scp peer — which acks every header, stores the declared bytes and
replays them with a correct C header and zero status byte — and downloading
the stored copy yields exactly the original bytes. -/
theorem upload_download_round_trip (filename : String) (content : List Nat)
    (hname : (10 : Nat) ∉ strBytes filename) (hlen : content.length < 2 ^ 63) :
    scpRoundTrip filename content = some content := by
  have hup := scpUploadFile_run filename content [] []
  have hwb : writtenBytes ([.wr (uploadHeader filename content.length), .rdB 0,
      .wr content, .wr [0], .rdB 0] : List Ev) =
      uploadHeader filename content.length ++ (content ++ [0]) := by
    simp [writtenBytes]
  have hsink := scpSinkStored_header filename content hname hlen
  have hdl := download_replay filename content hname hlen
  simp only [scpRoundTrip]
  rw [hup]
  simp only [Option.bind_eq_bind, Option.some_bind, List.nil_append]
  rw [hwb, hsink]
  simp only [Option.some_bind]
  rcases hX : download ⟨scpSourceReplay filename content, []⟩ with _ | pair
  · rw [hX] at hdl
    simp at hdl
  · rw [hX] at hdl
    rcases pair with ⟨data, stX⟩
    simp at hdl
    simp [hdl]

theorem upload_download_round_trip_witness :
    scpRoundTrip "f" [65, 66, 67] = some [65, 66, 67] :=
  upload_download_round_trip "f" [65, 66, 67] (by decide) (by decide)

end SshMcp
